import Mathlib

/-!
Verification of the EventManager repository (header-only C++20 event bus).

Shallow embedding of the final revision (`el::EventManager` with the
double-buffered `internal::UrgentActionList` / `internal::EventActionList`)
and of the earlier revision (inline action-list flushing in `publish`).

Modelling conventions:
* receiver identities (`void*` keys), event identities (`std::type_index`)
  and deferred-action identities are all opaque tokens, modelled as `Nat`;
* `std::unordered_map` is modelled as an association list with unique keys
  (`alook` / `aupdate` / `aerase` mirror `find` / in-place mutation / `erase`);
* handler bodies are modelled by their effect on the event's mutable
  `handled` flag, a function `Nat → Bool → Bool` (receiver ↦ flag transformer);
  deferred-action bodies in the manager-level model are inert (the model is
  the non-reentrant fragment: no handler or action re-enters the manager);
* the queue classes are additionally modelled with action bodies that may
  re-enqueue on the same queue (`beh : action ↦ enqueued actions`), which is
  the universe the double-buffering invariant quantifies over;
* a separate fueled interpreter models `EventHandlerList` with handler
  bodies that may remove receivers and trigger a nested dispatch of the
  same list, instrumented with the number of dispatch frames active.
-/

/-! ## Association-list primitives (for `std::unordered_map`) -/

def alook {β : Type} (k : Nat) : List (Nat × β) → Option β
  | [] => none
  | (k2, v) :: rest => if k2 = k then some v else alook k rest

def aupdate {β : Type} (k : Nat) (f : β → β) : List (Nat × β) → List (Nat × β)
  | [] => []
  | (k2, v) :: rest => if k2 = k then (k2, f v) :: rest else (k2, v) :: aupdate k f rest

def aerase {β : Type} (k : Nat) : List (Nat × β) → List (Nat × β)
  | [] => []
  | (k2, v) :: rest => if k2 = k then rest else (k2, v) :: aerase k rest

/-- `uint32_t` increment (`(m_subsCount[receiver_ptr])++`). -/
def inc32 (c : Nat) : Nat := (c + 1) % 4294967296

/-- `uint32_t` decrement (`sc_entry->second--`). -/
def dec32 (c : Nat) : Nat := (c + 4294967295) % 4294967296

/-! ## `internal::EventHandlerList`

`m_handlers : unordered_map<void*, Handler>` is modelled by its key set
(the stored callable for receiver `r` is supplied externally as the
behaviour function at dispatch time).  `m_order : list<void*>` holds
`some r` for a live slot and `none` for a `nullptr` tombstone. -/

structure HandlerList where
  handlers : List Nat
  order : List (Option Nat)
  executing : Bool
  needsCleanUp : Bool
deriving DecidableEq

def HandlerList.empty : HandlerList := ⟨[], [], false, false⟩

/-- `add`: insert the slot only if no entry for the receiver exists
(`m_handlers.find == end`); otherwise silent no-op. -/
def HandlerList.add (hl : HandlerList) (r : Nat) : HandlerList :=
  if r ∈ hl.handlers then hl
  else { hl with handlers := r :: hl.handlers, order := hl.order ++ [some r] }

/-- `std::find` + `*it = nullptr`: tombstone the first occurrence of `r`. -/
def replaceFirst (l : List (Option Nat)) (r : Nat) : List (Option Nat) :=
  match l with
  | [] => []
  | x :: xs => if x = some r then none :: xs else x :: replaceFirst xs r

/-- `remove`: erase the map entry; tombstone in place when `m_executing`,
otherwise `m_order.remove(receiver)` (erase all equal elements). -/
def HandlerList.remove (hl : HandlerList) (r : Nat) : HandlerList :=
  if r ∈ hl.handlers then
    let h2 := hl.handlers.erase r
    if hl.executing then
      { hl with handlers := h2, needsCleanUp := true, order := replaceFirst hl.order r }
    else
      { hl with handlers := h2, order := hl.order.filter (fun x => x != some r) }
  else hl

/-- `cleanUp`: drop tombstones (`m_order.remove_if(!handler)`) when flagged. -/
def HandlerList.cleanUp (hl : HandlerList) : HandlerList :=
  if hl.needsCleanUp then
    { hl with needsCleanUp := false, order := hl.order.filter (fun x => x.isSome) }
  else hl

/-- The `dispatch` loop body: skip `nullptr` entries, invoke the handler on
the current `handled` flag, stop as soon as the flag is set
(`if (e.handled) break`).  Returns the invocation log and the final flag. -/
def dispatchRun (hb : Nat → Bool → Bool) : List (Option Nat) → Bool → List Nat × Bool
  | [], h => ([], h)
  | none :: rest, h => dispatchRun hb rest h
  | some r :: rest, h =>
    let h2 := hb r h
    if h2 then ([r], h2)
    else
      let res := dispatchRun hb rest h2
      (r :: res.1, res.2)

/-- `dispatch`: run the loop, reset `m_executing`, then `cleanUp()`.
(Non-reentrant model: handlers only transform the `handled` flag.) -/
def HandlerList.dispatch (hl : HandlerList) (hb : Nat → Bool → Bool) (h0 : Bool) :
    HandlerList × List Nat :=
  let res := dispatchRun hb hl.order h0
  (HandlerList.cleanUp { hl with executing := false }, res.1)

/-! ## `internal::UrgentActionList`

Double-buffered global queue.  `beh a` lists the actions that action `a`
enqueues on this same queue when invoked (its `add` calls). -/

structure UrgentActionList where
  executing : Bool
  actions : List Nat
  buffer : List Nat
deriving DecidableEq

/-- `add`: append to `m_buffer` while flushing, else to `m_actions`. -/
def UrgentActionList.add (q : UrgentActionList) (a : Nat) : UrgentActionList :=
  if q.executing then { q with buffer := q.buffer ++ [a] }
  else { q with actions := q.actions ++ [a] }

/-- The `exec` loop: invoke each action in order; its enqueues land in the
(freshly cleared) buffer because `m_executing` is set. -/
def runUrgent (beh : Nat → List Nat) : List Nat → List Nat → List Nat × List Nat
  | [], buf => ([], buf)
  | a :: rest, buf =>
    let res := runUrgent beh rest (buf ++ beh a)
    (a :: res.1, res.2)

/-- `exec`: splice `m_buffer` onto the tail of `m_actions`, clear the
buffer, run everything, clear `m_actions`, reset `m_executing`. -/
def UrgentActionList.exec (q : UrgentActionList) (beh : Nat → List Nat) :
    UrgentActionList × List Nat :=
  let toRun := q.actions ++ q.buffer
  let res := runUrgent beh toRun []
  (⟨false, [], res.2⟩, res.1)

/-! ## `internal::EventActionList`

Per-event-identity double-buffered queues.
`mapAdd` is `m[&tid].push_back(action)` (`operator[]` inserts an empty
list when the key is absent). -/

def mapAdd (m : List (Nat × List Nat)) (t : Nat) (a : Nat) : List (Nat × List Nat) :=
  match alook t m with
  | some _ => aupdate t (fun l => l ++ [a]) m
  | none => m ++ [(t, [a])]

structure EventActionList where
  executing : Bool
  actions : List (Nat × List Nat)
  buffer : List (Nat × List Nat)
deriving DecidableEq

def EventActionList.add (q : EventActionList) (t : Nat) (a : Nat) : EventActionList :=
  if q.executing then { q with buffer := mapAdd q.buffer t a }
  else { q with actions := mapAdd q.actions t a }

/-- `m_actions.merge(std::move(m_buffer))`: a source entry is transferred
only when its key is absent from the destination; entries with colliding
keys remain in the source (and are then destroyed by `m_buffer.clear()`). -/
def mergeMaps (dst src : List (Nat × List Nat)) : List (Nat × List Nat) :=
  dst ++ src.filter (fun p => (alook p.1 dst).isNone)

/-- The `exec` loop over one type's action list; `beh a` lists the
`(type, action)` pairs that `a` enqueues on this `EventActionList`. -/
def runEvent (beh : Nat → List (Nat × Nat)) :
    List Nat → List (Nat × List Nat) → List Nat × List (Nat × List Nat)
  | [], buf => ([], buf)
  | a :: rest, buf =>
    let buf2 := (beh a).foldl (fun b p => mapAdd b p.1 p.2) buf
    let res := runEvent beh rest buf2
    (a :: res.1, res.2)

/-- The merge step at the head of `exec`: `if (!m_buffer.empty())` then
`m_actions.merge(std::move(m_buffer))` — the resulting active map. -/
def flushSrc (q : EventActionList) : List (Nat × List Nat) :=
  if q.buffer.isEmpty then q.actions else mergeMaps q.actions q.buffer

/-- `exec(tid)`: merge the buffer (when non-empty) and clear it, look up
the type's list, run and clear it (the key itself is never erased). -/
def EventActionList.exec (q : EventActionList) (beh : Nat → List (Nat × Nat)) (t : Nat) :
    EventActionList × List Nat :=
  let acts1 := flushSrc q
  match alook t acts1 with
  | none => (⟨false, acts1, []⟩, [])
  | some l =>
    if l.isEmpty then (⟨false, acts1, []⟩, [])
    else
      let res := runEvent beh l []
      (⟨false, aupdate t (fun _ => []) acts1, res.2⟩, res.1)

/-! ## `el::EventManager` (final revision, src/unnamed/part_001)

Non-reentrant model: handler bodies transform the `handled` flag
(`hbeh t r : Bool → Bool`), deferred-action bodies perform no manager
calls (the inert behaviour `fun _ => []`). -/

structure Manager where
  subscriptions : List (Nat × HandlerList)
  eventActions : EventActionList
  urgentActions : UrgentActionList
  subsCount : List (Nat × Nat)
deriving DecidableEq

def initManager : Manager := ⟨[], ⟨false, [], []⟩, ⟨false, [], []⟩, []⟩

/-- One invocation observed during a `publish` call. -/
inductive Entry where
  | urgent (a : Nat)
  | handler (r : Nat)
  | eventAct (a : Nat)
deriving DecidableEq

/-- `publish`: flush the urgent queue, dispatch the type's handler list
(no-op when absent), flush that type's event-action queue. -/
def Manager.publish (m : Manager) (hb : Nat → Bool → Bool) (t : Nat) (h0 : Bool) :
    Manager × List Entry :=
  let ur := m.urgentActions.exec (fun _ => [])
  let disp : List (Nat × HandlerList) × List Nat :=
    match alook t m.subscriptions with
    | none => (m.subscriptions, [])
    | some hl =>
      let r := hl.dispatch hb h0
      (aupdate t (fun _ => r.1) m.subscriptions, r.2)
  let ev := m.eventActions.exec (fun _ => []) t
  ({ subscriptions := disp.1, eventActions := ev.1, urgentActions := ur.1,
     subsCount := m.subsCount },
   ur.2.map Entry.urgent ++ disp.2.map Entry.handler ++ ev.2.map Entry.eventAct)

/-- `subscribe`: `m_subscriptions[tid].add(receiver, …)` then
`(m_subsCount[receiver_ptr])++`. -/
def Manager.subscribe (m : Manager) (r t : Nat) : Manager :=
  let subs := match alook t m.subscriptions with
    | some _ => aupdate t (fun hl => hl.add r) m.subscriptions
    | none => m.subscriptions ++ [(t, HandlerList.empty.add r)]
  let sc := match alook r m.subsCount with
    | some _ => aupdate r inc32 m.subsCount
    | none => m.subsCount ++ [(r, 1)]
  { m with subscriptions := subs, subsCount := sc }

/-- `unsubscribe<EventType>`: return unless a counter entry exists; if the
type has a registry entry, remove the receiver from its list, decrement
the counter unconditionally, erase the counter entry at zero. -/
def Manager.unsubscribe (m : Manager) (t r : Nat) : Manager :=
  match alook r m.subsCount with
  | none => m
  | some c =>
    match alook t m.subscriptions with
    | none => m
    | some hl =>
      let subs := aupdate t (fun _ => hl.remove r) m.subscriptions
      let c2 := dec32 c
      let sc := if c2 = 0 then aerase r m.subsCount
                else aupdate r (fun _ => c2) m.subsCount
      { m with subscriptions := subs, subsCount := sc }

/-- `unsubscribeAll`: fast-path return when the counter entry is absent or
zero; otherwise remove the receiver from every handler list and erase the
counter entry. -/
def Manager.unsubscribeAll (m : Manager) (r : Nat) : Manager :=
  match alook r m.subsCount with
  | none => m
  | some c =>
    if c = 0 then m
    else { m with
           subscriptions := m.subscriptions.map (fun p => (p.1, p.2.remove r)),
           subsCount := aerase r m.subsCount }

/-- The coordinator's public operations. -/
inductive Op where
  | publish (t : Nat) (h0 : Bool)
  | subscribe (r t : Nat)
  | unsubscribe (t r : Nat)
  | unsubscribeAll (r : Nat)
  | scheduleUrgent (a : Nat)
  | scheduleEvent (t a : Nat)
deriving DecidableEq

def runOp (hbeh : Nat → Nat → Bool → Bool) (m : Manager) : Op → Manager × List Entry
  | .publish t h0 => m.publish (hbeh t) t h0
  | .subscribe r t => (m.subscribe r t, [])
  | .unsubscribe t r => (m.unsubscribe t r, [])
  | .unsubscribeAll r => (m.unsubscribeAll r, [])
  | .scheduleUrgent a => ({ m with urgentActions := m.urgentActions.add a }, [])
  | .scheduleEvent t a => ({ m with eventActions := m.eventActions.add t a }, [])

def runOps (hbeh : Nat → Nat → Bool → Bool) (m : Manager) : List Op → Manager × List Entry
  | [] => (m, [])
  | op :: rest =>
    let r1 := runOp hbeh m op
    let r2 := runOps hbeh r1.1 rest
    (r2.1, r1.2 ++ r2.2)

/-- Whether the registry holds a handler slot for `(r, t)`. -/
def hasSlot (r t : Nat) (m : Manager) : Bool :=
  match alook t m.subscriptions with
  | some hl => decide (r ∈ hl.handlers)
  | none => false

/-! ## `el::EventManager` (earlier revision, src/include/EventManager/EventManager.hpp)

Same handler list, same subscribe/unsubscribe code; `publish` flushes a
plain `list<Action>` urgent list and a plain per-type
`unordered_map<type_index, list<Action>>` inline, with no buffers. -/

structure ManagerO where
  subscriptions : List (Nat × HandlerList)
  eventActions : List (Nat × List Nat)
  urgentActions : List Nat
  subsCount : List (Nat × Nat)
deriving DecidableEq

def initManagerO : ManagerO := ⟨[], [], [], []⟩

/-- Earlier `publish`: run and clear the urgent list (guarded by
non-emptiness), dispatch, then run and clear this type's action list
(the map entry's list is cleared, the key kept). -/
def ManagerO.publish (m : ManagerO) (hb : Nat → Bool → Bool) (t : Nat) (h0 : Bool) :
    ManagerO × List Entry :=
  let ur : List Nat × List Nat :=
    if m.urgentActions.isEmpty then (m.urgentActions, [])
    else ([], m.urgentActions)
  let disp : List (Nat × HandlerList) × List Nat :=
    match alook t m.subscriptions with
    | none => (m.subscriptions, [])
    | some hl =>
      let r := hl.dispatch hb h0
      (aupdate t (fun _ => r.1) m.subscriptions, r.2)
  let ev : List (Nat × List Nat) × List Nat :=
    match alook t m.eventActions with
    | none => (m.eventActions, [])
    | some l =>
      if l.isEmpty then (m.eventActions, [])
      else (aupdate t (fun _ => []) m.eventActions, l)
  ({ subscriptions := disp.1, eventActions := ev.1, urgentActions := ur.1,
     subsCount := m.subsCount },
   ur.2.map Entry.urgent ++ disp.2.map Entry.handler ++ ev.2.map Entry.eventAct)

def ManagerO.subscribe (m : ManagerO) (r t : Nat) : ManagerO :=
  let subs := match alook t m.subscriptions with
    | some _ => aupdate t (fun hl => hl.add r) m.subscriptions
    | none => m.subscriptions ++ [(t, HandlerList.empty.add r)]
  let sc := match alook r m.subsCount with
    | some _ => aupdate r inc32 m.subsCount
    | none => m.subsCount ++ [(r, 1)]
  { m with subscriptions := subs, subsCount := sc }

def ManagerO.unsubscribe (m : ManagerO) (t r : Nat) : ManagerO :=
  match alook r m.subsCount with
  | none => m
  | some c =>
    match alook t m.subscriptions with
    | none => m
    | some hl =>
      let subs := aupdate t (fun _ => hl.remove r) m.subscriptions
      let c2 := dec32 c
      let sc := if c2 = 0 then aerase r m.subsCount
                else aupdate r (fun _ => c2) m.subsCount
      { m with subscriptions := subs, subsCount := sc }

def ManagerO.unsubscribeAll (m : ManagerO) (r : Nat) : ManagerO :=
  match alook r m.subsCount with
  | none => m
  | some c =>
    if c = 0 then m
    else { m with
           subscriptions := m.subscriptions.map (fun p => (p.1, p.2.remove r)),
           subsCount := aerase r m.subsCount }

def runOpO (hbeh : Nat → Nat → Bool → Bool) (m : ManagerO) : Op → ManagerO × List Entry
  | .publish t h0 => m.publish (hbeh t) t h0
  | .subscribe r t => (m.subscribe r t, [])
  | .unsubscribe t r => (m.unsubscribe t r, [])
  | .unsubscribeAll r => (m.unsubscribeAll r, [])
  | .scheduleUrgent a => ({ m with urgentActions := m.urgentActions ++ [a] }, [])
  | .scheduleEvent t a => ({ m with eventActions := mapAdd m.eventActions t a }, [])

def runOpsO (hbeh : Nat → Nat → Bool → Bool) (m : ManagerO) : List Op → ManagerO × List Entry
  | [] => (m, [])
  | op :: rest =>
    let r1 := runOpO hbeh m op
    let r2 := runOpsO hbeh r1.1 rest
    (r2.1, r1.2 ++ r2.2)

/-! ## Reentrant `EventHandlerList` interpreter

For claims about mutation during dispatch: handler bodies are command
lists that may remove a receiver (`unsubscribe` routed to this list) or
trigger a nested dispatch of this same list (a handler publishing the
same event type; the nested publish carries a fresh event whose `handled`
flag starts false).  `framesActive` counts the dispatch frames currently
iterating the list — the code itself only keeps the boolean
`m_executing`.  Every removal is logged with the branch taken, the frame
count, and the order length before/after.  Fuel bounds the recursion;
`ok = false` marks fuel exhaustion (a completed run has `ok = true`). -/

inductive HCmd where
  | removeR (r : Nat)
  | nested
  | setHandled
  | nop
deriving DecidableEq

inductive RemLog where
  | tombstoned (r : Nat) (framesActive : Nat) (lenBefore lenAfter : Nat)
  | erased (r : Nat) (framesActive : Nat) (lenBefore lenAfter : Nat)
deriving DecidableEq

structure MRes where
  st : HandlerList
  handled : Bool
  log : List RemLog
  ok : Bool
deriving DecidableEq

/-- `remove` (same branches as `HandlerList.remove`), logging the branch
and the order length before and after. -/
def removeLogged (st : HandlerList) (r : Nat) (frames : Nat) : HandlerList × List RemLog :=
  if r ∈ st.handlers then
    let h2 := st.handlers.erase r
    if st.executing then
      let ord2 := replaceFirst st.order r
      ({ st with handlers := h2, needsCleanUp := true, order := ord2 },
       [RemLog.tombstoned r frames st.order.length ord2.length])
    else
      let ord2 := st.order.filter (fun x => x != some r)
      ({ st with handlers := h2, order := ord2 },
       [RemLog.erased r frames st.order.length ord2.length])
  else (st, [])

mutual

/-- `dispatch`: set `m_executing`, iterate, reset `m_executing`, `cleanUp`. -/
def dispatchM (beh : Nat → Nat → List HCmd) : Nat → Nat → HandlerList → Bool → MRes
  | 0, _, st, h => ⟨st, h, [], false⟩
  | fuel + 1, frames, st, h =>
    let res := loopM beh fuel (frames + 1) 0 { st with executing := true } h
    { res with st := HandlerList.cleanUp { res.st with executing := false } }
termination_by structural fuel _ _ _ => fuel

/-- The dispatch loop over the live order (position-based): skip
tombstones, invoke the handler's commands, `break` once `handled`. -/
def loopM (beh : Nat → Nat → List HCmd) : Nat → Nat → Nat → HandlerList → Bool → MRes
  | 0, _, _, st, h => ⟨st, h, [], false⟩
  | fuel + 1, frames, i, st, h =>
    if hlt : i < st.order.length then
      match st.order.get ⟨i, hlt⟩ with
      | none => loopM beh fuel frames (i + 1) st h
      | some r =>
        let res := cmdsM beh fuel frames (beh r frames) st h
        if res.handled then res
        else
          let res2 := loopM beh fuel frames (i + 1) res.st res.handled
          ⟨res2.st, res2.handled, res.log ++ res2.log, res.ok && res2.ok⟩
    else ⟨st, h, [], true⟩
termination_by structural fuel _ _ _ _ => fuel

/-- Run one handler body, command by command. -/
def cmdsM (beh : Nat → Nat → List HCmd) : Nat → Nat → List HCmd → HandlerList → Bool → MRes
  | 0, _, _, st, h => ⟨st, h, [], false⟩
  | _ + 1, _, [], st, h => ⟨st, h, [], true⟩
  | fuel + 1, frames, c :: cs, st, h =>
    let res1 : MRes :=
      match c with
      | .nop => ⟨st, h, [], true⟩
      | .setHandled => ⟨st, true, [], true⟩
      | .removeR r =>
        let p := removeLogged st r frames
        ⟨p.1, h, p.2, true⟩
      | .nested =>
        let d := dispatchM beh fuel frames st false
        ⟨d.st, h, d.log, d.ok⟩
    let res2 := cmdsM beh fuel frames cs res1.st res1.handled
    ⟨res2.st, res2.handled, res1.log ++ res2.log, res1.ok && res2.ok⟩
termination_by structural fuel _ _ _ _ => fuel

end

/-! ## Claims settled by closed evaluation -/

/-- C1: the claim states that an action enqueued on a queue while that
queue is being flushed is deferred to the following flush cycle and, for a
self-rescheduling action, runs again exactly once on the following flush
cycle.  This holds for `UrgentActionList` (list splice), but fails for
`EventActionList`: `unordered_map::merge` does not transfer a buffered
entry whose event-type key already exists in the active map, and
`m_buffer.clear()` then destroys it.  Here action `7` for type `0`
reschedules itself when invoked: the first flush runs it once and defers
the re-enqueue, but the second flush runs nothing and the action is gone
from both buffers — it never runs again. -/
theorem C1_event_action_dropped_on_reschedule :
    let q0 : EventActionList := ⟨false, [(0, [7])], []⟩
    let beh : Nat → List (Nat × Nat) := fun x => if x = 7 then [(0, 7)] else []
    let r1 := q0.exec beh 0
    let r2 := r1.1.exec beh 0
    r1.2 = [7] ∧ r1.1.buffer = [(0, [7])] ∧
    r2.2 = [] ∧ r2.1.buffer = [] ∧ r2.1.actions = [(0, [])] := by
  decide

/-- C2: the claim states that after `unsubscribeAll(receiver)` no handler
list holds a slot for that receiver.  Counterexample trace: receiver `0`
subscribes to types `10` and `11`; two `unsubscribe<10>` calls each
decrement the subscription counter (the second although no slot for
`(0,10)` remains), so the counter entry is erased while the slot in list
`11` survives; `unsubscribeAll(0)` then returns through its fast path and
a publish of type `11` still invokes receiver `0`'s handler. -/
theorem C2_unsubscribeAll_leaves_dangling_slot :
    let m : Manager := (runOps (fun _ _ b => b) initManager
      [Op.subscribe 0 10, Op.subscribe 0 11, Op.unsubscribe 10 0, Op.unsubscribe 10 0,
       Op.unsubscribeAll 0]).1
    hasSlot 0 11 m = true ∧ alook 0 m.subsCount = none ∧
    (runOp (fun _ _ b => b) m (Op.publish 11 false)).2.count (Entry.handler 0) = 1 := by
  decide

/-- C3: the claim states that `unsubscribe<E>(receiver)` for a receiver
never subscribed to `E` leaves the whole coordinator state, including the
receiver's subscription counter, unchanged.  Counterexample: receiver `1`
subscribes to type `10`, receiver `0` only to type `11`;
`unsubscribe<10>(0)` leaves every handler list unchanged but decrements
receiver `0`'s counter from 1 to 0 and erases the counter entry, because
the decrement is unconditional once the event type has a registry entry. -/
theorem C3_unsubscribe_of_foreign_type_mutates_counter :
    let m0 : Manager :=
      (runOps (fun _ _ b => b) initManager [Op.subscribe 1 10, Op.subscribe 0 11]).1
    let m1 := (runOp (fun _ _ b => b) m0 (Op.unsubscribe 10 0)).1
    m1.subscriptions = m0.subscriptions ∧ hasSlot 0 10 m0 = false ∧
    alook 0 m0.subsCount = some 1 ∧ alook 0 m1.subsCount = none := by
  decide

/-- C8: the claim states that every removal requested while the handler
list is mid-dispatch (including via a nested publish from inside a
handler) tombstones the slot in place and never resizes the order.
Counterexample: receivers `0` and `1`; receiver `0`'s handler first
publishes the same event type (a nested dispatch of the same list, which
resets the boolean `m_executing` on exit) and then removes receiver `1`.
The removal happens while one dispatch frame is still iterating the list
(`framesActive = 1`), yet takes the erase branch and shrinks the order
from 2 entries to 1 — the backing sequence is resized while a dispatch
loop holds a position into it. -/
theorem C8_remove_during_outer_dispatch_erases_after_nested_dispatch :
    let beh : Nat → Nat → List HCmd := fun r frames =>
      if r = 0 && frames = 1 then [HCmd.nested, HCmd.removeR 1] else []
    let res := dispatchM beh 50 0 ⟨[0, 1], [some 0, some 1], false, false⟩ false
    res.ok = true ∧ res.log = [RemLog.erased 1 1 2 1] ∧
    res.st.order = [some 0] ∧ res.st.handlers = [0] := by
  decide

/-! ## Association-list lemmas -/

theorem alook_aupdate {β : Type} (k2 k : Nat) (f : β → β) (l : List (Nat × β)) :
    alook k2 (aupdate k f l) = if k2 = k then (alook k l).map f else alook k2 l := by
  induction l with
  | nil => simp [alook, aupdate]
  | cons p rest ih =>
    obtain ⟨k3, v⟩ := p
    by_cases h3 : k3 = k
    · subst h3
      by_cases h2 : k2 = k3 <;> simp [alook, aupdate, h2, eq_comm]
    · by_cases h32 : k3 = k2
      · subst h32
        simp [alook, aupdate, h3, Ne.symm h3]
      · simp [alook, aupdate, h3, h32, ih]

theorem alook_append {β : Type} (k : Nat) (l1 l2 : List (Nat × β)) :
    alook k (l1 ++ l2) =
      match alook k l1 with
      | some v => some v
      | none => alook k l2 := by
  induction l1 with
  | nil => simp [alook]
  | cons p rest ih =>
    obtain ⟨k3, v⟩ := p
    by_cases h3 : k3 = k <;> simp [alook, h3, ih]

theorem alook_mapVal {β γ : Type} (k : Nat) (f : β → γ) (l : List (Nat × β)) :
    alook k (l.map (fun p => (p.1, f p.2))) = (alook k l).map f := by
  induction l with
  | nil => simp [alook]
  | cons p rest ih =>
    obtain ⟨k3, v⟩ := p
    by_cases h3 : k3 = k <;> simp [alook, h3, ih]

theorem aupdate_eq_self {β : Type} {k : Nat} {f : β → β} {l : List (Nat × β)}
    (h : ∀ v, alook k l = some v → f v = v) : aupdate k f l = l := by
  induction l with
  | nil => rfl
  | cons p rest ih =>
    obtain ⟨k3, v⟩ := p
    by_cases h3 : k3 = k
    · subst h3
      have := h v (by simp [alook])
      simp [aupdate, this]
    · have ih2 := ih (fun w hw => h w (by simpa [alook, h3] using hw))
      simp [aupdate, h3, ih2]

/-! ## C9: duplicate subscribe -/

theorem subscribe_existing_slot_preserves_subscriptions (m : Manager) (r t : Nat)
    (h : hasSlot r t m = true) :
    (m.subscribe r t).subscriptions = m.subscriptions := by
  unfold hasSlot at h
  cases e : alook t m.subscriptions with
  | none => rw [e] at h; simp at h
  | some hl =>
    rw [e] at h
    have hmem : r ∈ hl.handlers := of_decide_eq_true h
    have hadd : hl.add r = hl := by simp [HandlerList.add, hmem]
    unfold Manager.subscribe
    rw [e]
    simp only
    apply aupdate_eq_self
    intro v hv
    rw [e] at hv
    injection hv with hv2
    rw [← hv2, hadd]

/-- C9: a subscribe call for an already-subscribed `(receiver, event type)`
pair leaves every handler list unchanged (the slot insertion is guarded)
but still executes `(m_subsCount[receiver_ptr])++`, so the subscription
counter grows beyond the receiver's number of actual handler slots. -/
theorem C9_duplicate_subscribe_increments_counter (m : Manager) (r t : Nat)
    (h : hasSlot r t m = true) :
    (m.subscribe r t).subscriptions = m.subscriptions ∧
    alook r (m.subscribe r t).subsCount = some (inc32 ((alook r m.subsCount).getD 0)) := by
  refine ⟨subscribe_existing_slot_preserves_subscriptions m r t h, ?_⟩
  unfold Manager.subscribe
  cases e : alook r m.subsCount with
  | none =>
    simp only [e]
    rw [alook_append, e]
    simp [alook]
    decide
  | some c =>
    simp only [e]
    rw [alook_aupdate]
    simp [e]

/-- Witness for C9: receiver `0` subscribes to type `5` twice; the second
call leaves the single slot alone but raises the counter to 2, exceeding
the one actual slot. -/
theorem C9_duplicate_subscribe_increments_counter_witness :
    let m1 := initManager.subscribe 0 5
    hasSlot 0 5 m1 = true ∧
    ((m1.subscribe 0 5).subscriptions = m1.subscriptions ∧
      alook 0 (m1.subscribe 0 5).subsCount = some (inc32 ((alook 0 m1.subsCount).getD 0))) ∧
    alook 0 (m1.subscribe 0 5).subsCount = some 2 ∧
    (match alook 5 (m1.subscribe 0 5).subscriptions with
      | some hl => hl.order.length
      | none => 0) = 1 :=
  ⟨by decide, C9_duplicate_subscribe_increments_counter _ 0 5 (by decide), by decide, by decide⟩

/-! ## C4: dispatch order and short-circuit -/

/-- The subscription-order prefix up to and including the first receiver
whose handler sets the stopped flag (all receivers when none does). -/
def upToStop (stops : Nat → Bool) : List Nat → List Nat
  | [] => []
  | r :: rest => if stops r then [r] else r :: upToStop stops rest

theorem dispatchRun_upToStop (stops : Nat → Bool) (rs : List Nat) :
    (dispatchRun (fun r b => b || stops r) (rs.map some) false).1 = upToStop stops rs := by
  induction rs with
  | nil => rfl
  | cons r rest ih =>
    cases hs : stops r <;> simp [dispatchRun, upToStop, hs, ih]

/-- Projection extracting handler invocations from a publish log. -/
def handlerOf : Entry → Option Nat
  | Entry.handler r => some r
  | _ => none

theorem filterMap_handlerOf_urgent (l : List Nat) :
    l.filterMap (fun a => handlerOf (Entry.urgent a)) = [] := by
  induction l with
  | nil => rfl
  | cons a rest ih => simp [handlerOf, ih]

theorem filterMap_handlerOf_eventAct (l : List Nat) :
    l.filterMap (fun a => handlerOf (Entry.eventAct a)) = [] := by
  induction l with
  | nil => rfl
  | cons a rest ih => simp [handlerOf, ih]

theorem filterMap_handlerOf_handler (l : List Nat) :
    l.filterMap (fun a => handlerOf (Entry.handler a)) = l := by
  induction l with
  | nil => rfl
  | cons a rest ih => simp [handlerOf, ih]

/-- The handler invocations of a publish call are exactly the dispatch
loop's log of the event type's handler list (empty when absent). -/
theorem publish_handler_log (m : Manager) (hb : Nat → Bool → Bool) (t : Nat) (h0 : Bool) :
    ((m.publish hb t h0).2).filterMap handlerOf =
      match alook t m.subscriptions with
      | none => []
      | some hl => (dispatchRun hb hl.order h0).1 := by
  unfold Manager.publish
  cases alook t m.subscriptions <;>
    simp [HandlerList.dispatch, List.filterMap_append, Function.comp_def,
      filterMap_handlerOf_urgent, filterMap_handlerOf_eventAct, filterMap_handlerOf_handler]

/-- C4: with receivers `rs` subscribed to type `t` in that order (a
tombstone-free handler list) and handlers that either set the event's
stopped flag (`stops r = true`) or leave it alone, a publish of `t`
invokes exactly the receivers up to and including the first one that sets
the flag, in subscription order; receivers after it are not invoked. -/
theorem C4_publish_invokes_in_subscription_order_until_stopped
    (hbeh : Nat → Nat → Bool → Bool) (stops : Nat → Bool) (m : Manager) (t : Nat)
    (rs : List Nat) (hl : HandlerList)
    (hfind : alook t m.subscriptions = some hl)
    (horder : hl.order = rs.map some)
    (hstops : ∀ r b, hbeh t r b = (b || stops r)) :
    (runOp hbeh m (Op.publish t false)).2.filterMap handlerOf = upToStop stops rs := by
  have hfun : hbeh t = fun r b => b || stops r := funext fun r => funext fun b => hstops r b
  show ((m.publish (hbeh t) t false).2).filterMap handlerOf = _
  rw [publish_handler_log, hfind]
  show (dispatchRun (hbeh t) hl.order false).1 = _
  rw [horder, hfun, dispatchRun_upToStop]

/-- Witness for C4: receivers 1, 2, 9 subscribed to type 3 in that order;
receiver 2's handler stops the event, so exactly [1, 2] are invoked. -/
theorem C4_publish_invokes_in_subscription_order_until_stopped_witness :
    (let hbeh : Nat → Nat → Bool → Bool := fun _ r b => b || (r == 2)
     let m : Manager :=
       ⟨[(3, ⟨[9, 2, 1], [some 1, some 2, some 9], false, false⟩)],
        ⟨false, [], []⟩, ⟨false, [], []⟩, []⟩
     (runOp hbeh m (Op.publish 3 false)).2.filterMap handlerOf =
       upToStop (fun r => r == 2) [1, 2, 9]) ∧
    upToStop (fun r => r == 2) [1, 2, 9] = [1, 2] :=
  ⟨C4_publish_invokes_in_subscription_order_until_stopped _ (fun r => r == 2) _ 3 [1, 2, 9] _
      rfl rfl (fun _ _ => rfl),
   by decide⟩

/-! ## Inert-behaviour flush lemmas and log-count helpers -/

theorem runUrgent_inert (l : List Nat) : ∀ buf, runUrgent (fun _ => []) l buf = (l, buf) := by
  induction l with
  | nil => intro buf; rfl
  | cons a rest ih => intro buf; simp [runUrgent, ih]

theorem urgent_exec_inert (q : UrgentActionList) :
    q.exec (fun _ => []) = (⟨false, [], []⟩, q.actions ++ q.buffer) := by
  simp [UrgentActionList.exec, runUrgent_inert]

theorem runEvent_inert (l : List Nat) : ∀ buf, runEvent (fun _ => []) l buf = (l, buf) := by
  induction l with
  | nil => intro buf; rfl
  | cons a rest ih => intro buf; simp [runEvent, ih]

theorem count_map_urgent_urgent (l : List Nat) (a : Nat) :
    (l.map Entry.urgent).count (Entry.urgent a) = l.count a :=
  List.count_map_of_injective l Entry.urgent (fun x y h => by injection h) a

theorem count_map_handler_urgent (l : List Nat) (a : Nat) :
    (l.map Entry.handler).count (Entry.urgent a) = 0 := by
  rw [List.count_eq_zero]
  intro h
  obtain ⟨x, _, hx⟩ := List.mem_map.mp h
  exact Entry.noConfusion hx

theorem count_map_eventAct_urgent (l : List Nat) (a : Nat) :
    (l.map Entry.eventAct).count (Entry.urgent a) = 0 := by
  rw [List.count_eq_zero]
  intro h
  obtain ⟨x, _, hx⟩ := List.mem_map.mp h
  exact Entry.noConfusion hx

theorem count_map_eventAct_eventAct (l : List Nat) (a : Nat) :
    (l.map Entry.eventAct).count (Entry.eventAct a) = l.count a :=
  List.count_map_of_injective l Entry.eventAct (fun x y h => by injection h) a

theorem count_map_urgent_eventAct (l : List Nat) (a : Nat) :
    (l.map Entry.urgent).count (Entry.eventAct a) = 0 := by
  rw [List.count_eq_zero]
  intro h
  obtain ⟨x, _, hx⟩ := List.mem_map.mp h
  exact Entry.noConfusion hx

theorem count_map_handler_eventAct (l : List Nat) (a : Nat) :
    (l.map Entry.handler).count (Entry.eventAct a) = 0 := by
  rw [List.count_eq_zero]
  intro h
  obtain ⟨x, _, hx⟩ := List.mem_map.mp h
  exact Entry.noConfusion hx

theorem count_map_handler_handler (l : List Nat) (r : Nat) :
    (l.map Entry.handler).count (Entry.handler r) = l.count r :=
  List.count_map_of_injective l Entry.handler (fun x y h => by injection h) r

theorem count_map_urgent_handler (l : List Nat) (r : Nat) :
    (l.map Entry.urgent).count (Entry.handler r) = 0 := by
  rw [List.count_eq_zero]
  intro h
  obtain ⟨x, _, hx⟩ := List.mem_map.mp h
  exact Entry.noConfusion hx

theorem count_map_eventAct_handler (l : List Nat) (r : Nat) :
    (l.map Entry.eventAct).count (Entry.handler r) = 0 := by
  rw [List.count_eq_zero]
  intro h
  obtain ⟨x, _, hx⟩ := List.mem_map.mp h
  exact Entry.noConfusion hx

/-! ## Frame lemmas: which fields each operation touches -/

theorem subscribe_frame (m : Manager) (r t : Nat) :
    (m.subscribe r t).urgentActions = m.urgentActions ∧
    (m.subscribe r t).eventActions = m.eventActions := by
  unfold Manager.subscribe
  exact ⟨rfl, rfl⟩

theorem unsubscribe_frame (m : Manager) (t r : Nat) :
    (m.unsubscribe t r).urgentActions = m.urgentActions ∧
    (m.unsubscribe t r).eventActions = m.eventActions := by
  unfold Manager.unsubscribe
  split
  · exact ⟨rfl, rfl⟩
  · split
    · exact ⟨rfl, rfl⟩
    · exact ⟨rfl, rfl⟩

theorem unsubscribeAll_frame (m : Manager) (r : Nat) :
    (m.unsubscribeAll r).urgentActions = m.urgentActions ∧
    (m.unsubscribeAll r).eventActions = m.eventActions := by
  unfold Manager.unsubscribeAll
  split
  · exact ⟨rfl, rfl⟩
  · split
    · exact ⟨rfl, rfl⟩
    · exact ⟨rfl, rfl⟩

theorem publish_urgent_state (m : Manager) (hb : Nat → Bool → Bool) (t : Nat) (h0 : Bool) :
    (m.publish hb t h0).1.urgentActions = ⟨false, [], []⟩ := by
  unfold Manager.publish
  rw [urgent_exec_inert]

theorem publish_log_shape (m : Manager) (hb : Nat → Bool → Bool) (t : Nat) (h0 : Bool) :
    ∃ hl el : List Nat,
      (m.publish hb t h0).2 =
        (m.urgentActions.actions ++ m.urgentActions.buffer).map Entry.urgent ++
          hl.map Entry.handler ++ el.map Entry.eventAct := by
  refine ⟨(match alook t m.subscriptions with
           | none => (m.subscriptions, [])
           | some hl => ((aupdate t (fun _ => (hl.dispatch hb h0).1) m.subscriptions),
                         (hl.dispatch hb h0).2)).2,
          (m.eventActions.exec (fun _ => []) t).2, ?_⟩
  unfold Manager.publish
  rw [urgent_exec_inert]

/-! ## C6: urgent actions -/

/-- Action `a` is nowhere in the urgent queue. -/
def noUrgentA (m : Manager) (a : Nat) : Prop :=
  m.urgentActions.actions.count a = 0 ∧ m.urgentActions.buffer.count a = 0

theorem count_publish_log_urgent (m : Manager) (hb : Nat → Bool → Bool) (t : Nat)
    (h0 : Bool) (a : Nat) :
    ((m.publish hb t h0).2).count (Entry.urgent a)
      = (m.urgentActions.actions ++ m.urgentActions.buffer).count a := by
  obtain ⟨hl, el, hshape⟩ := publish_log_shape m hb t h0
  rw [hshape, List.count_append, List.count_append, count_map_urgent_urgent,
      count_map_handler_urgent, count_map_eventAct_urgent]
  omega

theorem noUrgentA_runOp (hbeh : Nat → Nat → Bool → Bool) (m : Manager) (a : Nat) (op : Op)
    (hm : noUrgentA m a) (hop : op ≠ Op.scheduleUrgent a) :
    noUrgentA (runOp hbeh m op).1 a ∧ (runOp hbeh m op).2.count (Entry.urgent a) = 0 := by
  cases op with
  | publish t h0 =>
    constructor
    · show noUrgentA (m.publish (hbeh t) t h0).1 a
      unfold noUrgentA
      rw [publish_urgent_state]
      exact ⟨rfl, rfl⟩
    · show ((m.publish (hbeh t) t h0).2).count (Entry.urgent a) = 0
      rw [count_publish_log_urgent, List.count_append, hm.1, hm.2]
  | subscribe r t =>
    refine ⟨?_, rfl⟩
    unfold noUrgentA
    rw [show (runOp hbeh m (Op.subscribe r t)).1.urgentActions = m.urgentActions from
        (subscribe_frame m r t).1]
    exact hm
  | unsubscribe t r =>
    refine ⟨?_, rfl⟩
    unfold noUrgentA
    rw [show (runOp hbeh m (Op.unsubscribe t r)).1.urgentActions = m.urgentActions from
        (unsubscribe_frame m t r).1]
    exact hm
  | unsubscribeAll r =>
    refine ⟨?_, rfl⟩
    unfold noUrgentA
    rw [show (runOp hbeh m (Op.unsubscribeAll r)).1.urgentActions = m.urgentActions from
        (unsubscribeAll_frame m r).1]
    exact hm
  | scheduleUrgent b =>
    have hba : b ≠ a := fun h => hop (by rw [h])
    refine ⟨?_, rfl⟩
    show noUrgentA { m with urgentActions := m.urgentActions.add b } a
    unfold noUrgentA UrgentActionList.add
    have hcb : List.count a [b] = 0 := by
      rw [List.count_eq_zero]
      simp [Ne.symm hba]
    by_cases he : m.urgentActions.executing <;>
      simp [he, List.count_append, hm.1, hm.2, hcb]
  | scheduleEvent t b =>
    exact ⟨hm, rfl⟩

theorem noUrgentA_runOps (hbeh : Nat → Nat → Bool → Bool) (m : Manager) (a : Nat)
    (ops : List Op) (hm : noUrgentA m a)
    (hops : ∀ op ∈ ops, op ≠ Op.scheduleUrgent a) :
    (runOps hbeh m ops).2.count (Entry.urgent a) = 0 ∧ noUrgentA (runOps hbeh m ops).1 a := by
  induction ops generalizing m with
  | nil => exact ⟨rfl, hm⟩
  | cons op rest ih =>
    have h1 := noUrgentA_runOp hbeh m a op hm (hops op (by simp))
    have h2 := ih (runOp hbeh m op).1 h1.1 (fun o ho => hops o (by simp [ho]))
    refine ⟨?_, h2.2⟩
    show ((runOp hbeh m op).2 ++ (runOps hbeh (runOp hbeh m op).1 rest).2).count
        (Entry.urgent a) = 0
    rw [List.count_append, h1.2, h2.1]

/-- C6: an urgent action `a` pending in the urgent queue (scheduled
outside any flush, present exactly once) is invoked exactly once by the
very next publish call of any event type `t`, and its invocation appears
in the urgent segment of the log, which precedes every handler invocation
of that publish (the urgent flush happens before the handler-list lookup
by the definition of `publish`).  Afterwards the urgent queue is empty
and no later operation sequence that does not re-schedule `a` ever
invokes it again. -/
theorem C6_urgent_action_exactly_once_before_handlers
    (hbeh : Nat → Nat → Bool → Bool) (m : Manager) (a t : Nat) (h0 : Bool) (ops : List Op)
    (hcount : (m.urgentActions.actions ++ m.urgentActions.buffer).count a = 1)
    (hlater : ∀ op ∈ ops, op ≠ Op.scheduleUrgent a) :
    (∃ ul hl el : List Nat,
        (runOp hbeh m (Op.publish t h0)).2 =
          ul.map Entry.urgent ++ hl.map Entry.handler ++ el.map Entry.eventAct ∧
        ul.count a = 1) ∧
    (runOp hbeh m (Op.publish t h0)).1.urgentActions = ⟨false, [], []⟩ ∧
    (runOps hbeh (runOp hbeh m (Op.publish t h0)).1 ops).2.count (Entry.urgent a) = 0 := by
  refine ⟨?_, publish_urgent_state m (hbeh t) t h0, ?_⟩
  · obtain ⟨hl, el, hshape⟩ := publish_log_shape m (hbeh t) t h0
    exact ⟨m.urgentActions.actions ++ m.urgentActions.buffer, hl, el, hshape, hcount⟩
  · apply (noUrgentA_runOps hbeh _ a ops ?_ hlater).1
    have hs : (runOp hbeh m (Op.publish t h0)).1.urgentActions = ⟨false, [], []⟩ :=
      publish_urgent_state m (hbeh t) t h0
    unfold noUrgentA
    rw [hs]
    exact ⟨rfl, rfl⟩

/-- Witness for C6: action 4 pending in the urgent queue, one subscriber
of type 2; publishing type 2 flushes action 4 once before the handler,
and neither a later publish nor an unrelated schedule reruns it. -/
theorem C6_urgent_action_exactly_once_before_handlers_witness :
    (let hb : Nat → Nat → Bool → Bool := fun _ _ b => b
     let m : Manager :=
       ⟨[(2, ⟨[8], [some 8], false, false⟩)], ⟨false, [], []⟩, ⟨false, [4], []⟩, []⟩
     (∃ ul hl el : List Nat,
        (runOp hb m (Op.publish 2 false)).2 =
          ul.map Entry.urgent ++ hl.map Entry.handler ++ el.map Entry.eventAct ∧
        ul.count 4 = 1) ∧
     (runOp hb m (Op.publish 2 false)).1.urgentActions = ⟨false, [], []⟩ ∧
     (runOps hb (runOp hb m (Op.publish 2 false)).1
        [Op.publish 2 false, Op.scheduleUrgent 9, Op.publish 3 true]).2.count
          (Entry.urgent 4) = 0) :=
  C6_urgent_action_exactly_once_before_handlers _ _ 4 2 false
    [Op.publish 2 false, Op.scheduleUrgent 9, Op.publish 3 true]
    (by decide) (by decide)

/-! ## C7: event actions -/

theorem alook_filter_absent {β : Type} (k : Nat) (dst : List (Nat × β))
    (src : List (Nat × β)) :
    alook k (src.filter (fun p => (alook p.1 dst).isNone)) =
      if (alook k dst).isNone then alook k src else none := by
  induction src with
  | nil => simp [alook]
  | cons p rest ih =>
    obtain ⟨k3, v⟩ := p
    by_cases h3 : k3 = k
    · subst h3
      cases hd : (alook k3 dst).isNone <;> simp [List.filter_cons, hd, alook, ih]
    · cases hd : (alook k3 dst).isNone <;> simp [List.filter_cons, hd, alook, h3, ih]

theorem alook_mergeMaps (k : Nat) (dst src : List (Nat × List Nat)) :
    alook k (mergeMaps dst src) =
      match alook k dst with
      | some v => some v
      | none => alook k src := by
  unfold mergeMaps
  rw [alook_append, alook_filter_absent]
  cases alook k dst <;> simp

/-- Looking up a key in the post-merge active map reads the active map
first, then the buffer. -/
theorem alook_flushSrc (q : EventActionList) (k : Nat) :
    alook k (flushSrc q) =
      match alook k q.actions with
      | some v => some v
      | none => alook k q.buffer := by
  unfold flushSrc
  cases hb : q.buffer.isEmpty
  · simp only [Bool.false_eq_true, if_false, alook_mergeMaps]
  · have hnil : q.buffer = [] := by simpa [List.isEmpty_iff] using hb
    simp only [if_true, hnil, alook]
    cases alook k q.actions <;> simp

theorem event_exec_inert (q : EventActionList) (t : Nat) :
    q.exec (fun _ => []) t =
      match alook t (flushSrc q) with
      | none => (⟨false, flushSrc q, []⟩, [])
      | some l =>
        if l.isEmpty then (⟨false, flushSrc q, []⟩, [])
        else (⟨false, aupdate t (fun _ => []) (flushSrc q), []⟩, l) := by
  unfold EventActionList.exec
  cases e : alook t (flushSrc q) with
  | none => simp [e]
  | some l => cases hl : l.isEmpty <;> simp [e, hl, runEvent_inert]

/-- After a flush of type `t`, a key `k ≠ t` maps to what the active map
held for it, falling back to the buffer. -/
theorem alook_exec_actions (q : EventActionList) (t k : Nat) (hk : k ≠ t) :
    alook k (q.exec (fun _ => []) t).1.actions =
      match alook k q.actions with
      | some v => some v
      | none => alook k q.buffer := by
  rw [event_exec_inert]
  cases e : alook t (flushSrc q) with
  | none => simpa using alook_flushSrc q k
  | some l =>
    cases hl : l.isEmpty <;>
      simp [hl, alook_aupdate, hk, alook_flushSrc q k]

/-- The inert flush of type `t` runs exactly the list found for `t` in the
post-merge active map (nothing when absent). -/
theorem event_exec_inert_log (q : EventActionList) (t : Nat) :
    (q.exec (fun _ => []) t).2 =
      match alook t (flushSrc q) with
      | none => []
      | some l => if l.isEmpty then [] else l := by
  rw [event_exec_inert]
  cases e : alook t (flushSrc q) with
  | none => rfl
  | some l => cases hl : l.isEmpty <;> simp [hl]

theorem event_exec_inert_buffer (q : EventActionList) (t : Nat) :
    (q.exec (fun _ => []) t).1.buffer = [] := by
  rw [event_exec_inert]
  cases e : alook t (flushSrc q) with
  | none => rfl
  | some l => cases hl : l.isEmpty <;> simp [hl]

theorem alook_mapAdd (k t b : Nat) (m : List (Nat × List Nat)) :
    alook k (mapAdd m t b) =
      if k = t then some (((alook t m).getD []) ++ [b]) else alook k m := by
  unfold mapAdd
  cases e : alook t m with
  | some l =>
    rw [alook_aupdate]
    by_cases hk : k = t <;> simp [hk, e]
  | none =>
    rw [alook_append]
    by_cases hk : k = t
    · subst hk
      simp [e, alook]
    · cases e2 : alook k m <;> simp [e2, alook, hk, Ne.symm hk]

/-- Action `a` is nowhere in the event-action queues. -/
def noEventA (m : Manager) (a : Nat) : Prop :=
  (∀ k l, alook k m.eventActions.actions = some l → a ∉ l) ∧
  (∀ k l, alook k m.eventActions.buffer = some l → a ∉ l)

theorem flushSrc_noA (q : EventActionList) (a : Nat)
    (h1 : ∀ k l, alook k q.actions = some l → a ∉ l)
    (h2 : ∀ k l, alook k q.buffer = some l → a ∉ l) :
    ∀ k l, alook k (flushSrc q) = some l → a ∉ l := by
  intro k l h
  rw [alook_flushSrc] at h
  cases e : alook k q.actions with
  | some v =>
    rw [e] at h
    exact Option.some.inj h ▸ h1 k v e
  | none =>
    rw [e] at h
    exact h2 k l h

theorem exec_noA_actions (q : EventActionList) (a t : Nat)
    (h1 : ∀ k l, alook k q.actions = some l → a ∉ l)
    (h2 : ∀ k l, alook k q.buffer = some l → a ∉ l) :
    ∀ k l, alook k (q.exec (fun _ => []) t).1.actions = some l → a ∉ l := by
  have hsrc := flushSrc_noA q a h1 h2
  rw [event_exec_inert]
  cases e : alook t (flushSrc q) with
  | none => exact hsrc
  | some l0 =>
    cases hl : l0.isEmpty
    · simp only [hl, Bool.false_eq_true, if_false]
      intro k l h
      rw [alook_aupdate] at h
      by_cases hk : k = t
      · rw [if_pos hk] at h
        cases e2 : alook t (flushSrc q) with
        | none => rw [e2] at h; exact absurd h (by simp)
        | some v =>
          rw [e2] at h
          have : l = [] := by simpa using (Option.some.inj h).symm
          simp [this]
      · rw [if_neg hk] at h
        exact hsrc k l h
    · simp only [hl, if_true]
      exact hsrc

theorem exec_log_noA (q : EventActionList) (a t : Nat)
    (h1 : ∀ k l, alook k q.actions = some l → a ∉ l)
    (h2 : ∀ k l, alook k q.buffer = some l → a ∉ l) :
    a ∉ (q.exec (fun _ => []) t).2 := by
  have hsrc := flushSrc_noA q a h1 h2
  rw [event_exec_inert_log]
  cases e : alook t (flushSrc q) with
  | none => simp
  | some l =>
    cases hl : l.isEmpty <;> simp [hl]
    exact hsrc t l e

/-- The publish log, segment by segment: urgent flush, dispatch, event
flush. -/
theorem publish_log_parts (m : Manager) (hb : Nat → Bool → Bool) (t : Nat) (h0 : Bool) :
    (m.publish hb t h0).2 =
      (m.urgentActions.actions ++ m.urgentActions.buffer).map Entry.urgent ++
      (match alook t m.subscriptions with
       | none => []
       | some hl => (dispatchRun hb hl.order h0).1).map Entry.handler ++
      ((m.eventActions.exec (fun _ => []) t).2).map Entry.eventAct := by
  unfold Manager.publish
  rw [urgent_exec_inert]
  cases alook t m.subscriptions <;> simp [HandlerList.dispatch]

theorem count_publish_log_eventAct (m : Manager) (hb : Nat → Bool → Bool) (t : Nat)
    (h0 : Bool) (a : Nat) :
    ((m.publish hb t h0).2).count (Entry.eventAct a)
      = ((m.eventActions.exec (fun _ => []) t).2).count a := by
  rw [publish_log_parts, List.count_append, List.count_append, count_map_urgent_eventAct,
      count_map_handler_eventAct, count_map_eventAct_eventAct]
  omega

theorem mapAdd_noA (mm : List (Nat × List Nat)) (a t2 b : Nat) (hba : b ≠ a)
    (h : ∀ k l, alook k mm = some l → a ∉ l) :
    ∀ k l, alook k (mapAdd mm t2 b) = some l → a ∉ l := by
  intro k l hkl
  rw [alook_mapAdd] at hkl
  by_cases hk : k = t2
  · rw [if_pos hk] at hkl
    obtain rfl : ((alook t2 mm).getD []) ++ [b] = l := Option.some.inj hkl
    intro hmem
    rcases List.mem_append.mp hmem with hin | hin
    · cases e : alook t2 mm with
      | none => rw [e] at hin; simp at hin
      | some l0 => rw [e] at hin; exact h t2 l0 e hin
    · exact Ne.symm hba (by simpa using hin)
  · rw [if_neg hk] at hkl
    exact h k l hkl

theorem noEventA_runOp (hbeh : Nat → Nat → Bool → Bool) (m : Manager) (a : Nat) (op : Op)
    (hm : noEventA m a) (hop : ∀ t2, op ≠ Op.scheduleEvent t2 a) :
    noEventA (runOp hbeh m op).1 a ∧ (runOp hbeh m op).2.count (Entry.eventAct a) = 0 := by
  cases op with
  | publish t h0 =>
    constructor
    · constructor
      · exact fun k l h => exec_noA_actions m.eventActions a t hm.1 hm.2 k l h
      · intro k l h
        have hbuf : (m.eventActions.exec (fun _ => []) t).1.buffer = [] :=
          event_exec_inert_buffer m.eventActions t
        rw [show (runOp hbeh m (Op.publish t h0)).1.eventActions.buffer = [] from hbuf] at h
        exact absurd h (by simp [alook])
    · show ((m.publish (hbeh t) t h0).2).count (Entry.eventAct a) = 0
      rw [count_publish_log_eventAct, List.count_eq_zero]
      exact exec_log_noA m.eventActions a t hm.1 hm.2
  | subscribe r t =>
    refine ⟨?_, rfl⟩
    unfold noEventA
    rw [show (runOp hbeh m (Op.subscribe r t)).1.eventActions = m.eventActions from
        (subscribe_frame m r t).2]
    exact hm
  | unsubscribe t r =>
    refine ⟨?_, rfl⟩
    unfold noEventA
    rw [show (runOp hbeh m (Op.unsubscribe t r)).1.eventActions = m.eventActions from
        (unsubscribe_frame m t r).2]
    exact hm
  | unsubscribeAll r =>
    refine ⟨?_, rfl⟩
    unfold noEventA
    rw [show (runOp hbeh m (Op.unsubscribeAll r)).1.eventActions = m.eventActions from
        (unsubscribeAll_frame m r).2]
    exact hm
  | scheduleUrgent b =>
    exact ⟨hm, rfl⟩
  | scheduleEvent t2 b =>
    have hba : b ≠ a := fun hEq => (hop t2) (by rw [hEq])
    refine ⟨?_, rfl⟩
    show noEventA { m with eventActions := m.eventActions.add t2 b } a
    unfold noEventA EventActionList.add
    cases he : m.eventActions.executing
    · simp only [Bool.false_eq_true, if_false]
      exact ⟨mapAdd_noA m.eventActions.actions a t2 b hba hm.1, hm.2⟩
    · simp only [if_true]
      exact ⟨hm.1, mapAdd_noA m.eventActions.buffer a t2 b hba hm.2⟩

theorem noEventA_runOps (hbeh : Nat → Nat → Bool → Bool) (m : Manager) (a : Nat)
    (ops : List Op) (hm : noEventA m a)
    (hops : ∀ op ∈ ops, ∀ t2, op ≠ Op.scheduleEvent t2 a) :
    (runOps hbeh m ops).2.count (Entry.eventAct a) = 0 ∧
    noEventA (runOps hbeh m ops).1 a := by
  induction ops generalizing m with
  | nil => exact ⟨rfl, hm⟩
  | cons op rest ih =>
    have h1 := noEventA_runOp hbeh m a op hm (hops op (by simp))
    have h2 := ih (runOp hbeh m op).1 h1.1 (fun o ho => hops o (by simp [ho]))
    refine ⟨?_, h2.2⟩
    show ((runOp hbeh m op).2 ++ (runOps hbeh (runOp hbeh m op).1 rest).2).count
        (Entry.eventAct a) = 0
    rw [List.count_append, h1.2, h2.1]

/-- C7: an event action `a` pending (exactly once) in the active list for
event type `T`, scheduled outside any flush and nowhere else in the
event-action queues, is (i) not invoked by a publish of a different type
`U`, which leaves it pending; (ii) invoked exactly once by the next
publish of `T`, in the event-action segment of the log, which comes after
every handler invocation of that publish (dispatch runs before the
event-action flush by the definition of `publish`, whether or not a
handler short-circuited it via the stopped flag); and (iii) never invoked
again by any later operation sequence that does not re-schedule it. -/
theorem C7_event_action_after_next_publish_of_T
    (hbeh : Nat → Nat → Bool → Bool) (m : Manager) (a T U : Nat) (h0 hu : Bool)
    (ops : List Op) (lT : List Nat)
    (hT : alook T m.eventActions.actions = some lT)
    (hcount : lT.count a = 1)
    (hother : ∀ k l, k ≠ T → alook k m.eventActions.actions = some l → a ∉ l)
    (hbuf : ∀ k l, alook k m.eventActions.buffer = some l → a ∉ l)
    (hUT : U ≠ T)
    (hlater : ∀ op ∈ ops, ∀ t2, op ≠ Op.scheduleEvent t2 a) :
    ((runOp hbeh m (Op.publish U hu)).2.count (Entry.eventAct a) = 0 ∧
      alook T (runOp hbeh m (Op.publish U hu)).1.eventActions.actions = some lT) ∧
    (∃ ul hl el : List Nat,
        (runOp hbeh m (Op.publish T h0)).2 =
          ul.map Entry.urgent ++ hl.map Entry.handler ++ el.map Entry.eventAct ∧
        el.count a = 1) ∧
    (runOps hbeh (runOp hbeh m (Op.publish T h0)).1 ops).2.count (Entry.eventAct a) = 0 := by
  have hsrcT : alook T (flushSrc m.eventActions) = some lT := by
    rw [alook_flushSrc, hT]
  have hne : lT ≠ [] := by
    intro h
    rw [h] at hcount
    simp at hcount
  have hlne : lT.isEmpty = false := by
    rw [← Bool.not_eq_true, List.isEmpty_iff]
    exact hne
  have hsrcOther : ∀ k l, k ≠ T → alook k (flushSrc m.eventActions) = some l → a ∉ l := by
    intro k l hk h
    rw [alook_flushSrc] at h
    cases e : alook k m.eventActions.actions with
    | some v =>
      rw [e] at h
      exact Option.some.inj h ▸ hother k v hk e
    | none =>
      rw [e] at h
      exact hbuf k l h
  refine ⟨⟨?_, ?_⟩, ?_, ?_⟩
  · -- publishing U does not invoke a
    show ((m.publish (hbeh U) U hu).2).count (Entry.eventAct a) = 0
    rw [count_publish_log_eventAct, List.count_eq_zero, event_exec_inert_log]
    cases e : alook U (flushSrc m.eventActions) with
    | none => simp
    | some lU =>
      cases hl : lU.isEmpty <;> simp [hl]
      exact hsrcOther U lU hUT e
  · -- publishing U leaves a pending for T
    show alook T (m.eventActions.exec (fun _ => []) U).1.actions = some lT
    rw [alook_exec_actions m.eventActions U T (Ne.symm hUT), hT]
  · -- publishing T runs a exactly once, after the handlers
    refine ⟨m.urgentActions.actions ++ m.urgentActions.buffer,
      (match alook T m.subscriptions with
       | none => []
       | some hl => (dispatchRun (hbeh T) hl.order h0).1),
      (m.eventActions.exec (fun _ => []) T).2, publish_log_parts m (hbeh T) T h0, ?_⟩
    rw [event_exec_inert_log, hsrcT]
    simp [hlne, hcount]
  · -- a is never invoked again
    apply (noEventA_runOps hbeh _ a ops ?_ hlater).1
    constructor
    · show ∀ k l, alook k (m.eventActions.exec (fun _ => []) T).1.actions = some l → a ∉ l
      rw [event_exec_inert, hsrcT]
      simp only [hlne, Bool.false_eq_true, if_false]
      intro k l h
      rw [alook_aupdate] at h
      by_cases hk : k = T
      · rw [if_pos hk, hsrcT] at h
        have : l = [] := by simpa using (Option.some.inj h).symm
        simp [this]
      · rw [if_neg hk] at h
        exact hsrcOther k l hk h
    · show ∀ k l, alook k (m.eventActions.exec (fun _ => []) T).1.buffer = some l → a ∉ l
      rw [event_exec_inert_buffer]
      intro k l h
      exact absurd h (by simp [alook])

/-- Witness for C7: action 7 pending for type 5; publishing type 1 does
not run it, publishing type 5 runs it once after the handler of receiver
8, and later publishes and unrelated schedules never run it again. -/
theorem C7_event_action_after_next_publish_of_T_witness :
    (let hb : Nat → Nat → Bool → Bool := fun _ _ b => b
     let m : Manager :=
       ⟨[(1, ⟨[8], [some 8], false, false⟩)], ⟨false, [(5, [7])], []⟩, ⟨false, [], []⟩, []⟩
     ((runOp hb m (Op.publish 1 true)).2.count (Entry.eventAct 7) = 0 ∧
       alook 5 (runOp hb m (Op.publish 1 true)).1.eventActions.actions = some [7]) ∧
     (∃ ul hl el : List Nat,
        (runOp hb m (Op.publish 5 false)).2 =
          ul.map Entry.urgent ++ hl.map Entry.handler ++ el.map Entry.eventAct ∧
        el.count 7 = 1) ∧
     (runOps hb (runOp hb m (Op.publish 5 false)).1
        [Op.publish 5 false, Op.scheduleEvent 5 9, Op.publish 1 true]).2.count
          (Entry.eventAct 7) = 0) :=
  C7_event_action_after_next_publish_of_T _ _ 7 5 1 false true
    [Op.publish 5 false, Op.scheduleEvent 5 9, Op.publish 1 true] [7]
    (by decide) (by decide)
    (fun k l hk h => by simp [alook, Ne.symm hk] at h)
    (fun k l h => by simp [alook] at h)
    (by decide)
    (by
      intro op hop t2
      fin_cases hop <;> simp)

/-! ## C5: at most one handler slot per (receiver, event type) pair -/

/-- Well-formedness of a handler list at rest: not executing, no pending
compaction, no duplicate keys, no duplicate live order entries, and the
key set of `m_handlers` coincides with the live entries of `m_order`. -/
def HLwf (hl : HandlerList) : Prop :=
  hl.executing = false ∧ hl.needsCleanUp = false ∧
  hl.handlers.Nodup ∧ (hl.order.filterMap id).Nodup ∧
  ∀ r : Nat, r ∈ hl.handlers ↔ some r ∈ hl.order

theorem count_some_filterMap (l : List (Option Nat)) (r : Nat) :
    l.count (some r) = (l.filterMap id).count r := by
  induction l with
  | nil => rfl
  | cons x rest ih =>
    cases x with
    | none => simp [List.count_cons, List.filterMap_cons, ih]
    | some v => simp [List.count_cons, List.filterMap_cons, ih]

theorem mem_filterMap_id (l : List (Option Nat)) (r : Nat) :
    r ∈ l.filterMap id ↔ some r ∈ l := by
  simp [List.mem_filterMap]

theorem HLwf_empty : HLwf HandlerList.empty := by
  refine ⟨rfl, rfl, List.nodup_nil, List.nodup_nil, ?_⟩
  intro r
  simp [HandlerList.empty]

theorem HLwf_add {hl : HandlerList} (r : Nat) (h : HLwf hl) : HLwf (hl.add r) := by
  unfold HandlerList.add
  by_cases hmem : r ∈ hl.handlers
  · simpa [hmem] using h
  · obtain ⟨he, hn, hnd, hond, hiff⟩ := h
    simp only [hmem, if_false]
    refine ⟨he, hn, List.nodup_cons.mpr ⟨hmem, hnd⟩, ?_, ?_⟩
    · rw [List.filterMap_append]
      rw [List.nodup_append]
      refine ⟨hond, by simp, ?_⟩
      intro x hx
      simp only [List.filterMap_cons, List.filterMap_nil, id] at *
      intro hx2
      have : x = r := by simpa using hx2
      subst this
      exact hmem ((hiff x).mpr ((mem_filterMap_id hl.order x).mp hx))
    · intro r2
      rw [List.mem_cons, List.mem_append, hiff r2]
      simp only [List.mem_singleton, Option.some.injEq]
      tauto

theorem HLwf_remove {hl : HandlerList} (r : Nat) (h : HLwf hl) : HLwf (hl.remove r) := by
  unfold HandlerList.remove
  by_cases hmem : r ∈ hl.handlers
  · obtain ⟨he, hn, hnd, hond, hiff⟩ := h
    simp only [hmem, if_true, he, Bool.false_eq_true, if_false]
    refine ⟨rfl, hn, hnd.erase r, ?_, ?_⟩
    · exact ((List.filter_sublist hl.order).filterMap id).nodup hond
    · intro r2
      by_cases hr2 : r2 = r
      · subst hr2
        constructor
        · intro hin
          exact absurd hin (hnd.not_mem_erase)
        · intro hin
          rw [List.mem_filter] at hin
          simp at hin
      · rw [List.mem_erase_of_ne hr2, hiff r2, List.mem_filter]
        constructor
        · intro hin
          refine ⟨hin, ?_⟩
          simp [hr2]
        · exact fun hin => hin.1
  · simpa [hmem] using h

theorem dispatch_of_wf {hl : HandlerList} (h : HLwf hl) (hb : Nat → Bool → Bool) (h0 : Bool) :
    (hl.dispatch hb h0).1 = hl := by
  obtain ⟨he, hn, _⟩ := h
  unfold HandlerList.dispatch HandlerList.cleanUp
  cases hl with
  | mk a b c d =>
    simp only at he hn
    subst he
    subst hn
    simp

/-- Every handler list reachable in the registry is well-formed. -/
def Mwf (m : Manager) : Prop :=
  ∀ t hl, alook t m.subscriptions = some hl → HLwf hl

theorem alook_subscribe (m : Manager) (r t t2 : Nat) :
    alook t2 (m.subscribe r t).subscriptions =
      if t2 = t then some (((alook t m.subscriptions).getD HandlerList.empty).add r)
      else alook t2 m.subscriptions := by
  unfold Manager.subscribe
  cases e : alook t m.subscriptions with
  | some hl =>
    simp only [e]
    rw [alook_aupdate]
    by_cases hk : t2 = t <;> simp [hk, e]
  | none =>
    simp only [e]
    rw [alook_append]
    by_cases hk : t2 = t
    · subst hk
      simp [e, alook]
    · cases e2 : alook t2 m.subscriptions <;> simp [e2, alook, hk, Ne.symm hk]

theorem Mwf_runOp (hbeh : Nat → Nat → Bool → Bool) (m : Manager) (op : Op)
    (h : Mwf m) : Mwf (runOp hbeh m op).1 := by
  cases op with
  | publish t h0 =>
    cases e : alook t m.subscriptions with
    | none =>
      have hs : (m.publish (hbeh t) t h0).1.subscriptions = m.subscriptions := by
        unfold Manager.publish
        rw [e]
      intro t2 hl2 h2
      rw [show (runOp hbeh m (Op.publish t h0)).1.subscriptions = m.subscriptions from hs] at h2
      exact h t2 hl2 h2
    | some hl =>
      have hs : (m.publish (hbeh t) t h0).1.subscriptions = m.subscriptions := by
        unfold Manager.publish
        rw [e]
        simp only
        rw [dispatch_of_wf (h t hl e)]
        apply aupdate_eq_self
        intro v hv
        rw [e] at hv
        exact Option.some.inj hv
      intro t2 hl2 h2
      rw [show (runOp hbeh m (Op.publish t h0)).1.subscriptions = m.subscriptions from hs] at h2
      exact h t2 hl2 h2
  | subscribe r t =>
    intro t2 hl2 h2
    rw [show (runOp hbeh m (Op.subscribe r t)).1.subscriptions = (m.subscribe r t).subscriptions
        from rfl, alook_subscribe] at h2
    by_cases hk : t2 = t
    · rw [if_pos hk] at h2
      obtain rfl := (Option.some.inj h2).symm
      cases e : alook t m.subscriptions with
      | some hl => exact HLwf_add r (h t hl e)
      | none => exact HLwf_add r HLwf_empty
    · rw [if_neg hk] at h2
      exact h t2 hl2 h2
  | unsubscribe t r =>
    cases e1 : alook r m.subsCount with
    | none =>
      intro t2 hl2 h2
      rw [show (runOp hbeh m (Op.unsubscribe t r)).1.subscriptions = m.subscriptions from by
        show (m.unsubscribe t r).subscriptions = m.subscriptions
        unfold Manager.unsubscribe
        rw [e1]] at h2
      exact h t2 hl2 h2
    | some c =>
      cases e2 : alook t m.subscriptions with
      | none =>
        intro t2 hl2 h2
        rw [show (runOp hbeh m (Op.unsubscribe t r)).1.subscriptions = m.subscriptions from by
          show (m.unsubscribe t r).subscriptions = m.subscriptions
          unfold Manager.unsubscribe
          rw [e1, e2]] at h2
        exact h t2 hl2 h2
      | some hl =>
        intro t2 hl2 h2
        rw [show (runOp hbeh m (Op.unsubscribe t r)).1.subscriptions =
            aupdate t (fun _ => hl.remove r) m.subscriptions from by
          show (m.unsubscribe t r).subscriptions = _
          unfold Manager.unsubscribe
          rw [e1, e2]] at h2
        rw [alook_aupdate] at h2
        by_cases hk : t2 = t
        · rw [if_pos hk, e2] at h2
          obtain rfl := (Option.some.inj h2).symm
          exact HLwf_remove r (h t hl e2)
        · rw [if_neg hk] at h2
          exact h t2 hl2 h2
  | unsubscribeAll r =>
    cases e1 : alook r m.subsCount with
    | none =>
      intro t2 hl2 h2
      rw [show (runOp hbeh m (Op.unsubscribeAll r)).1.subscriptions = m.subscriptions from by
        show (m.unsubscribeAll r).subscriptions = m.subscriptions
        unfold Manager.unsubscribeAll
        rw [e1]] at h2
      exact h t2 hl2 h2
    | some c =>
      by_cases hc : c = 0
      · intro t2 hl2 h2
        rw [show (runOp hbeh m (Op.unsubscribeAll r)).1.subscriptions = m.subscriptions from by
          show (m.unsubscribeAll r).subscriptions = m.subscriptions
          unfold Manager.unsubscribeAll
          rw [e1]
          simp [hc]] at h2
        exact h t2 hl2 h2
      · intro t2 hl2 h2
        rw [show (runOp hbeh m (Op.unsubscribeAll r)).1.subscriptions =
            m.subscriptions.map (fun p => (p.1, p.2.remove r)) from by
          show (m.unsubscribeAll r).subscriptions = _
          unfold Manager.unsubscribeAll
          rw [e1]
          simp [hc]] at h2
        rw [alook_mapVal t2 (fun hl : HandlerList => hl.remove r)] at h2
        cases e2 : alook t2 m.subscriptions with
        | none => rw [e2] at h2; exact absurd h2 (by simp)
        | some hl =>
          rw [e2] at h2
          obtain rfl := (Option.some.inj h2).symm
          exact HLwf_remove r (h t2 hl e2)
  | scheduleUrgent a =>
    exact h
  | scheduleEvent t a =>
    exact h

theorem Mwf_runOps (hbeh : Nat → Nat → Bool → Bool) (ops : List Op) (m : Manager)
    (h : Mwf m) : Mwf (runOps hbeh m ops).1 := by
  induction ops generalizing m with
  | nil => exact h
  | cons op rest ih => exact ih (runOp hbeh m op).1 (Mwf_runOp hbeh m op h)

theorem Mwf_init : Mwf initManager := by
  intro t hl h
  exact absurd h (by simp [alook, initManager])

theorem dispatchRun_inert (hb : Nat → Bool → Bool) (hinert : ∀ r2 b, hb r2 b = b)
    (l : List (Option Nat)) : dispatchRun hb l false = (l.filterMap id, false) := by
  induction l with
  | nil => rfl
  | cons x rest ih =>
    cases x with
    | none => simpa [dispatchRun, List.filterMap_cons] using ih
    | some r2 => simp [dispatchRun, hinert, List.filterMap_cons, ih]

/-- C5: in every state reachable from the initial coordinator by any
operation sequence, each handler list holds at most one slot per
receiver; a further subscribe for an already-subscribed `(receiver,
event type)` pair leaves the subscription registry unchanged (no-op, not
a replace); and a publish of that type with no handler setting the
stopped flag invokes that receiver's handler exactly once. -/
theorem C5_at_most_one_slot_per_pair
    (hbeh : Nat → Nat → Bool → Bool) (ops : List Op) (r t : Nat) :
    (∀ t2 hl, alook t2 (runOps hbeh initManager ops).1.subscriptions = some hl →
        hl.order.count (some r) ≤ 1) ∧
    (hasSlot r t (runOps hbeh initManager ops).1 = true →
        ((runOps hbeh initManager ops).1.subscribe r t).subscriptions =
          (runOps hbeh initManager ops).1.subscriptions) ∧
    (hasSlot r t (runOps hbeh initManager ops).1 = true →
        (∀ r2 b, hbeh t r2 b = b) →
        (runOp hbeh (runOps hbeh initManager ops).1 (Op.publish t false)).2.count
          (Entry.handler r) = 1) := by
  have hwf : Mwf (runOps hbeh initManager ops).1 := Mwf_runOps hbeh ops initManager Mwf_init
  refine ⟨?_, ?_, ?_⟩
  · intro t2 hl h2
    rw [count_some_filterMap]
    exact List.nodup_iff_count_le_one.mp (hwf t2 hl h2).2.2.2.1 r
  · exact fun hs => subscribe_existing_slot_preserves_subscriptions _ r t hs
  · intro hslot hinert
    unfold hasSlot at hslot
    cases e : alook t (runOps hbeh initManager ops).1.subscriptions with
    | none => rw [e] at hslot; simp at hslot
    | some hl =>
      rw [e] at hslot
      have hmem : r ∈ hl.handlers := of_decide_eq_true hslot
      obtain ⟨_, _, _, hond, hiff⟩ := hwf t hl e
      have hcnt : (hl.order.filterMap id).count r = 1 := by
        refine Nat.le_antisymm (List.nodup_iff_count_le_one.mp hond r) ?_
        exact List.count_pos_iff.mpr ((mem_filterMap_id hl.order r).mpr ((hiff r).mp hmem))
      show (((runOps hbeh initManager ops).1.publish (hbeh t) t false).2).count
          (Entry.handler r) = 1
      rw [publish_log_parts, List.count_append, List.count_append,
          count_map_urgent_handler, count_map_eventAct_handler, e]
      show 0 + (((dispatchRun (hbeh t) hl.order false).1).map Entry.handler).count
          (Entry.handler r) + 0 = 1
      rw [dispatchRun_inert (hbeh t) hinert, count_map_handler_handler, hcnt]

/-- Witness for C5: receiver 0 subscribes to type 5 twice; the registry is
unchanged by the duplicate subscribe and a publish of type 5 invokes
receiver 0 exactly once. -/
theorem C5_at_most_one_slot_per_pair_witness :
    hasSlot 0 5 (runOps (fun _ _ b => b) initManager
        [Op.subscribe 0 5, Op.subscribe 0 5]).1 = true ∧
    ((runOps (fun _ _ b => b) initManager
        [Op.subscribe 0 5, Op.subscribe 0 5]).1.subscribe 0 5).subscriptions =
      (runOps (fun _ _ b => b) initManager
        [Op.subscribe 0 5, Op.subscribe 0 5]).1.subscriptions ∧
    (runOp (fun _ _ b => b) (runOps (fun _ _ b => b) initManager
        [Op.subscribe 0 5, Op.subscribe 0 5]).1 (Op.publish 5 false)).2.count
        (Entry.handler 0) = 1 := by
  have h := C5_at_most_one_slot_per_pair (fun _ _ b => b)
    [Op.subscribe 0 5, Op.subscribe 0 5] 0 5
  exact ⟨by decide, h.2.1 (by decide), h.2.2 (by decide) (fun _ _ => rfl)⟩

/-! ## C10: the earlier revision's publish refines to the final one -/

/-- The final-revision state corresponding to an earlier-revision state:
same registry and counters, each plain action list wrapped in a
double-buffered queue with an empty buffer and a clear flushing flag
(the at-rest invariant of the non-reentrant fragment). -/
def corrState (o : ManagerO) : Manager :=
  ⟨o.subscriptions, ⟨false, o.eventActions, []⟩, ⟨false, o.urgentActions, []⟩, o.subsCount⟩

/-- The simulation relation between the two revisions. -/
def Corr (o : ManagerO) (n : Manager) : Prop := n = corrState o

theorem refine_runOp (hbeh : Nat → Nat → Bool → Bool) (o : ManagerO) (op : Op) :
    runOp hbeh (corrState o) op =
      (corrState (runOpO hbeh o op).1, (runOpO hbeh o op).2) := by
  cases op with
  | publish t h0 =>
    simp only [runOp, runOpO]
    unfold Manager.publish ManagerO.publish corrState
    rw [urgent_exec_inert, event_exec_inert,
        show flushSrc ⟨false, o.eventActions, []⟩ = o.eventActions from rfl]
    cases hu : o.urgentActions.isEmpty <;>
      cases es : alook t o.subscriptions <;>
      cases ee : alook t o.eventActions <;>
      simp_all [List.isEmpty_iff] <;>
      split_ifs <;>
      simp_all
  | subscribe r t =>
    simp only [runOp, runOpO]
    unfold Manager.subscribe ManagerO.subscribe corrState
    cases e1 : alook t o.subscriptions <;> cases e2 : alook r o.subsCount <;> simp [e1, e2]
  | unsubscribe t r =>
    simp only [runOp, runOpO]
    unfold Manager.unsubscribe ManagerO.unsubscribe corrState
    cases e1 : alook r o.subsCount with
    | none => simp [e1]
    | some c =>
      cases e2 : alook t o.subscriptions with
      | none => simp [e1, e2]
      | some hl =>
        by_cases hc : dec32 c = 0 <;> simp [e1, e2, hc]
  | unsubscribeAll r =>
    simp only [runOp, runOpO]
    unfold Manager.unsubscribeAll ManagerO.unsubscribeAll corrState
    cases e1 : alook r o.subsCount with
    | none => simp [e1]
    | some c =>
      by_cases hc : c = 0 <;> simp [e1, hc]
  | scheduleUrgent a =>
    simp only [runOp, runOpO]
    unfold UrgentActionList.add corrState
    simp
  | scheduleEvent t a =>
    simp only [runOp, runOpO]
    unfold EventActionList.add corrState
    simp

/-- C10: with no handler or scheduled action re-entering the coordinator
(handlers only read and write the event's stopped flag; actions perform no
coordinator calls), the earlier revision — whose publish runs and clears
the plain urgent list and the plain per-type action list inline — and the
final revision — whose publish flushes through the double-buffered queue
classes — produce identical invocation logs (same handlers and actions in
the same order) on every operation sequence, and their final states stay
related by the simulation relation. -/
theorem C10_publish_refinement (hbeh : Nat → Nat → Bool → Bool) (o : ManagerO)
    (n : Manager) (hc : Corr o n) (ops : List Op) :
    (runOpsO hbeh o ops).2 = (runOps hbeh n ops).2 ∧
    Corr (runOpsO hbeh o ops).1 (runOps hbeh n ops).1 := by
  unfold Corr at hc
  subst hc
  induction ops generalizing o with
  | nil => exact ⟨rfl, rfl⟩
  | cons op rest ih =>
    have hstep := refine_runOp hbeh o op
    show ((runOpO hbeh o op).2 ++ (runOpsO hbeh (runOpO hbeh o op).1 rest).2 =
        (runOp hbeh (corrState o) op).2 ++
          (runOps hbeh (runOp hbeh (corrState o) op).1 rest).2) ∧
      Corr (runOpsO hbeh (runOpO hbeh o op).1 rest).1
        (runOps hbeh (runOp hbeh (corrState o) op).1 rest).1
    rw [hstep]
    have hrest := ih (runOpO hbeh o op).1
    exact ⟨by rw [hrest.1], hrest.2⟩

/-- Witness for C10: from the initial states of both revisions, a sequence
mixing subscribes, schedules and publishes produces the same log and
related states. -/
theorem C10_publish_refinement_witness :
    (runOpsO (fun _ r b => b || (r == 3)) initManagerO
      [Op.subscribe 3 1, Op.subscribe 4 1, Op.scheduleUrgent 7, Op.scheduleEvent 1 8,
       Op.publish 1 false, Op.publish 1 false, Op.unsubscribe 1 3, Op.publish 1 false]).2 =
    (runOps (fun _ r b => b || (r == 3)) initManager
      [Op.subscribe 3 1, Op.subscribe 4 1, Op.scheduleUrgent 7, Op.scheduleEvent 1 8,
       Op.publish 1 false, Op.publish 1 false, Op.unsubscribe 1 3, Op.publish 1 false]).2 ∧
    Corr (runOpsO (fun _ r b => b || (r == 3)) initManagerO
      [Op.subscribe 3 1, Op.subscribe 4 1, Op.scheduleUrgent 7, Op.scheduleEvent 1 8,
       Op.publish 1 false, Op.publish 1 false, Op.unsubscribe 1 3, Op.publish 1 false]).1
      (runOps (fun _ r b => b || (r == 3)) initManager
      [Op.subscribe 3 1, Op.subscribe 4 1, Op.scheduleUrgent 7, Op.scheduleEvent 1 8,
       Op.publish 1 false, Op.publish 1 false, Op.unsubscribe 1 3, Op.publish 1 false]).1 :=
  C10_publish_refinement (fun _ r b => b || (r == 3)) initManagerO initManager
    rfl
    [Op.subscribe 3 1, Op.subscribe 4 1, Op.scheduleUrgent 7, Op.scheduleEvent 1 8,
     Op.publish 1 false, Op.publish 1 false, Op.unsubscribe 1 3, Op.publish 1 false]
